import Mathlib

/-!
Verification of the audio playlist coordination engine
(`audio-manager.js` and the player component's index-translation logic).

The manager's mutable fields are embedded as a record `AM.MState`; each
method becomes a pure function from state to state.  The playback
resource (the `Audio` element) is modelled synchronously on its success
path: `play()` sets `isPlaying := true` (the `play` event) and `pause()`
sets `isPlaying := false` (the `pause` event); `audio.src` assignment
stores the track's source string.  The widget-teardown hook invoked by
`clearPlayers` only touches the listener registry of widgets, not the
manager fields, so it has no effect on `MState`.  The listener arrays
and their `forEach` broadcast are modelled separately (namespace
`Listeners`), with callbacks identified by numeric ids and an
interpretation function giving each callback's effect on the array.
-/

namespace AM

/-- A playlist entry `{title, src}`. -/
structure Track where
  title : String
  src : String
deriving DecidableEq, Repr

/-- Waveform payload; opaque to the engine beyond storage, modelled as
a list of samples. -/
abbrev WaveformData := List Nat

/-- A registered player record, as built by `register`.  The `options.player`
widget handle is external UI state and is not part of the coordination
engine's data. -/
structure Player where
  name : String
  playlist : List Track
  artist : Option String
  year : Option String
  waveforms : Nat → Option WaveformData

/-- The `_pendingReconnect` record captured by `clearPlayers`. -/
structure Pending where
  playerName : Option String
  src : String
  time : Int
  playing : Bool
deriving DecidableEq

/-- The manager's mutable state. -/
structure MState where
  players : String → Option Player
  activePlayerName : Option String
  currentPlaylist : List Track
  currentIndex : Nat
  isPlaying : Bool
  audioSrc : String
  audioTime : Int
  audioDuration : Int
  pending : Option Pending

/-- Update one key of the registry (JS object assignment / delete). -/
def rset (r : String → Option Player) (n : String) (p : Option Player) :
    String → Option Player :=
  fun m => if m = n then p else r m

/-- Update one key of a waveform cache (JS object assignment). -/
def wset (w : Nat → Option WaveformData) (i : Nat) (d : WaveformData) :
    Nat → Option WaveformData :=
  fun j => if j = i then some d else w j

/-- JS `Array.prototype.findIndex`, starting at position `k`. -/
def jsFindIndexFrom {α : Type} (p : α → Bool) : List α → Nat → Int
  | [], _ => -1
  | x :: rest, k => if p x then (k : Int) else jsFindIndexFrom p rest (k + 1)

/-- JS `Array.prototype.findIndex`: index of the first match, `-1` if none. -/
def jsFindIndex {α : Type} (p : α → Bool) (l : List α) : Int :=
  jsFindIndexFrom p l 0

/-- Does `needle` occur at the head of `hay`? -/
def jsStartsWith : List Char → List Char → Bool
  | [], _ => true
  | _ :: _, [] => false
  | a :: as, b :: bs => a == b && jsStartsWith as bs

/-- Is `needle` an infix of the list? -/
def jsIncludesL (needle : List Char) : List Char → Bool
  | [] => needle.isEmpty
  | c :: rest => jsStartsWith needle (c :: rest) || jsIncludesL needle rest

/-- JS `hay.includes(needle)`: substring containment. -/
def jsIncludes (hay needle : String) : Bool :=
  jsIncludesL needle.toList hay.toList

/-- JS indexing `l[i]` with a possibly negative index. -/
def intGet? {α : Type} (l : List α) (i : Int) : Option α :=
  if 0 ≤ i then l.get? i.toNat else none

/-- `register(name, playlist, options)`: insert or replace the entry,
carrying over an existing waveform cache for that name. -/
def register (s : MState) (name : String) (playlist : List Track)
    (artist year : Option String) : MState :=
  let existingWaveforms := match s.players name with
    | some p => p.waveforms
    | none => fun _ => none
  let entry : Player :=
    { name := name, playlist := playlist, artist := artist,
      year := year, waveforms := existingWaveforms }
  { s with players := rset s.players name (some entry) }

/-- `unregister(name)`: if active, pause and detach the selection, then
delete the entry. -/
def unregister (s : MState) (name : String) : MState :=
  let s1 := if s.activePlayerName = some name then
      { s with isPlaying := false, activePlayerName := none, currentPlaylist := [] }
    else s
  { s1 with players := rset s1.players name none }

/-- `clearPlayers()`: drop every registration without touching the
resource, capturing a `_pendingReconnect` snapshot from the pre-clear
state.  (The widget `destroy` hook only runs listener disposers, which
live outside `MState`.) -/
def clearPlayers (s : MState) : MState :=
  { s with
    players := fun _ => none,
    pending := some { playerName := s.activePlayerName, src := s.audioSrc,
                      time := s.audioTime, playing := s.isPlaying } }

/-- `tryReconnect(name)`: returns the updated state and the boolean result. -/
def tryReconnect (s : MState) (name : String) : MState × Bool :=
  match s.pending with
  | none => (s, false)
  | some pr =>
    if pr.playerName ≠ some name then (s, false)
    else
      match s.players name with
      | none => (s, false)
      | some player =>
        let matchIndex := jsFindIndex (fun t => jsIncludes pr.src t.src) player.playlist
        if 0 ≤ matchIndex then
          ({ s with activePlayerName := some name,
                    currentPlaylist := player.playlist,
                    currentIndex := matchIndex.toNat,
                    pending := none }, true)
        else
          ({ s with pending := none }, false)

/-- `loadTrack(index)`: in-range loads set the index and the resource source. -/
def loadTrack (s : MState) (index : Nat) : MState :=
  match s.currentPlaylist.get? index with
  | some track => { s with currentIndex := index, audioSrc := track.src }
  | none => s

/-- `play()`: no-op on an empty selection, otherwise start the resource
(success path: the `play` event sets `isPlaying`). -/
def play (s : MState) : MState :=
  if s.currentPlaylist.length = 0 then s
  else { s with isPlaying := true }

/-- `pause()`: the resource's `pause` event clears `isPlaying`. -/
def pause (s : MState) : MState :=
  { s with isPlaying := false }

/-- `playPlaylist(name, startIndex)`. -/
def playPlaylist (s : MState) (name : String) (startIndex : Nat) : MState :=
  match s.players name with
  | none => s
  | some player =>
    let s1 := { s with activePlayerName := some name,
                       currentPlaylist := player.playlist }
    play (loadTrack s1 startIndex)

/-- `next()`: advance and keep playing mid-playlist; at the end, wrap to
track 0 and pause. -/
def next (s : MState) : MState :=
  if s.currentIndex < s.currentPlaylist.length - 1 then
    play (loadTrack s (s.currentIndex + 1))
  else
    pause (loadTrack s 0)

/-- `getCurrentTrack()`. -/
def getCurrentTrack (s : MState) : Option Track :=
  if s.currentPlaylist.length = 0 then none
  else s.currentPlaylist.get? s.currentIndex

/-- The state snapshot delivered to state listeners. -/
structure Snapshot where
  isPlaying : Bool
  currentTrack : Option Track
  currentIndex : Nat
  playlistName : Option String
  playlistLength : Nat
  currentTime : Int
  duration : Int
  artist : Option String
  year : Option String

/-- `getState()`. -/
def getState (s : MState) : Snapshot :=
  let player := match s.activePlayerName with
    | some n => s.players n
    | none => none
  { isPlaying := s.isPlaying,
    currentTrack := getCurrentTrack s,
    currentIndex := s.currentIndex,
    playlistName := s.activePlayerName,
    playlistLength := s.currentPlaylist.length,
    currentTime := s.audioTime,
    duration := s.audioDuration,
    artist := player.bind (·.artist),
    year := player.bind (·.year) }

/-- `setWaveform(playerName, trackIndex, data)`. -/
def setWaveform (s : MState) (name : String) (idx : Nat) (d : WaveformData) : MState :=
  match s.players name with
  | some p =>
    { s with players := rset s.players name (some { p with waveforms := wset p.waveforms idx d }) }
  | none => s

/-- `getWaveform(playerName, trackIndex)`. -/
def getWaveform (s : MState) (name : String) (idx : Nat) : Option WaveformData :=
  match s.players name with
  | some p => p.waveforms idx
  | none => none

/-- Value of one hex digit. -/
def hexVal (c : Char) : Option Nat :=
  if '0' ≤ c ∧ c ≤ '9' then some (c.toNat - '0'.toNat)
  else if 'a' ≤ c ∧ c ≤ 'f' then some (c.toNat - 'a'.toNat + 10)
  else if 'A' ≤ c ∧ c ≤ 'F' then some (c.toNat - 'A'.toNat + 10)
  else none

/-- Percent-decoding of a character list (single-byte model of
`decodeURIComponent`; a malformed escape is passed through). -/
def decodeChars : List Char → List Char
  | [] => []
  | '%' :: a :: b :: rest =>
    match hexVal a, hexVal b with
    | some ha, some hb => Char.ofNat (16 * ha + hb) :: decodeChars rest
    | _, _ => '%' :: decodeChars (a :: b :: rest)
  | c :: rest => c :: decodeChars rest

/-- `decodeURIComponent` on strings. -/
def decodeURIComponent (s : String) : String :=
  String.mk (decodeChars s.toList)

/-- The player widget's fields relevant to index translation: its own
track list and the optional master-playlist name it aliases. -/
structure APlayer where
  masterPlaylist : Option String
  playlist : List Track

/-- `findMasterIndex(localIndex)`: position in the master playlist of the
track whose percent-decoded src equals the local track's. -/
def findMasterIndex (ap : APlayer) (players : String → Option Player)
    (localIndex : Int) : Int :=
  match ap.masterPlaylist with
  | none => -1
  | some mname =>
    match intGet? ap.playlist localIndex with
    | none => -1
    | some localTrack =>
      match players mname with
      | none => -1
      | some masterPlayer =>
        jsFindIndex
          (fun t => decodeURIComponent t.src == decodeURIComponent localTrack.src)
          masterPlayer.playlist

/-- `findLocalIndex(masterIndex)`: position in the local playlist of the
track whose percent-decoded src equals the master track's. -/
def findLocalIndex (ap : APlayer) (players : String → Option Player)
    (masterIndex : Int) : Int :=
  match ap.masterPlaylist with
  | none => -1
  | some mname =>
    match players mname with
    | none => -1
    | some masterPlayer =>
      match intGet? masterPlayer.playlist masterIndex with
      | none => -1
      | some masterTrack =>
        jsFindIndex
          (fun t => decodeURIComponent t.src == decodeURIComponent masterTrack.src)
          ap.playlist

end AM

namespace Listeners

/-- Callbacks are identified by numeric ids; the listener array is a list
of ids.  `addStateListener`/`addTimeListener` push onto the array. -/
def addListener (l : List Nat) (cb : Nat) : List Nat := l ++ [cb]

/-- Running the disposer returned by `addStateListener`/`addTimeListener`:
`indexOf` the callback, then `splice(idx, 1)` when found. -/
def disposerRun (cb : Nat) (l : List Nat) : List Nat :=
  let idx := AM.jsFindIndex (fun x => x == cb) l
  if 0 ≤ idx then l.eraseIdx idx.toNat else l

/-- One broadcast step of JS `Array.prototype.forEach` over the live
array: `fuel` counts the remaining positions of the length captured when
the broadcast began, `k` is the current position, `l` the current array,
`inv` the callbacks invoked so far.  A position at or beyond the current
length is skipped; an invoked callback may rewrite the array through the
interpretation `act`. -/
def notifyAux (act : Nat → List Nat → List Nat) :
    Nat → Nat → List Nat → List Nat → List Nat × List Nat
  | 0, _, l, inv => (l, inv)
  | fuel + 1, k, l, inv =>
    match l.get? k with
    | some cb => notifyAux act fuel (k + 1) (act cb l) (inv ++ [cb])
    | none => notifyAux act fuel (k + 1) l inv

/-- `_notifyStateListeners` / `_notifyTimeListeners`:
`this._listeners.forEach(cb => cb(payload))` on the live array (no
snapshot is taken).  Returns the final array and the invocation sequence. -/
def notifyListeners (act : Nat → List Nat → List Nat) (l : List Nat) :
    List Nat × List Nat :=
  notifyAux act l.length 0 l []

/-- Interpretation for the self-unsubscribing scenario: callback `10`
runs its own disposer when invoked; every other callback leaves the
array alone. -/
def selfRemoveAct : Nat → List Nat → List Nat :=
  fun c l => if c = 10 then disposerRun 10 l else l

end Listeners

namespace AM

theorem jsFindIndexFrom_eq_neg_one {α : Type} (p : α → Bool) :
    ∀ (l : List α) (st : Nat), (∀ x ∈ l, p x = false) →
      jsFindIndexFrom p l st = -1
  | [], _, _ => rfl
  | x :: rest, st, h => by
    have hx : p x = false := h x (List.mem_cons_self x rest)
    simp only [jsFindIndexFrom, hx, Bool.false_eq_true, if_false]
    exact jsFindIndexFrom_eq_neg_one p rest (st + 1)
      (fun y hy => h y (List.mem_cons_of_mem x hy))

theorem jsFindIndexFrom_nonneg {α : Type} (p : α → Bool) :
    ∀ (l : List α) (st : Nat) (x : α), x ∈ l → p x = true →
      0 ≤ jsFindIndexFrom p l st
  | [], _, x, hx, _ => absurd hx (List.not_mem_nil x)
  | z :: rest, st, x, hx, hp => by
    by_cases hz : p z = true
    · simp only [jsFindIndexFrom, hz, if_true]
      exact Int.ofNat_nonneg st
    · have hz' : p z = false := by
        cases h : p z
        · rfl
        · exact absurd h hz
      simp only [jsFindIndexFrom, hz', Bool.false_eq_true, if_false]
      rcases List.mem_cons.mp hx with rfl | hmem
      · exact absurd hp hz
      · exact jsFindIndexFrom_nonneg p rest (st + 1) x hmem hp

theorem jsFindIndexFrom_first {α : Type} (p : α → Bool) :
    ∀ (l : List α) (j : Nat) (x : α), l.get? j = some x → p x = true →
      (∀ k y, k < j → l.get? k = some y → p y = false) →
      ∀ st : Nat, jsFindIndexFrom p l st = ((st + j : Nat) : Int)
  | [], j, x, hj, _, _, _ => by simp [List.get?] at hj
  | z :: rest, 0, x, hj, hx, _, st => by
    have hz : z = x := by
      have : some z = some x := hj
      exact Option.some.inj this
    subst hz
    simp [jsFindIndexFrom, hx]
  | z :: rest, j + 1, x, hj, hx, hmin, st => by
    have hz : p z = false := hmin 0 z (Nat.succ_pos j) rfl
    have ih := jsFindIndexFrom_first p rest j x hj hx
      (fun k y hk hy => hmin (k + 1) y (Nat.succ_lt_succ hk) hy) (st + 1)
    simp only [jsFindIndexFrom, hz, Bool.false_eq_true, if_false]
    rw [ih]
    omega

theorem jsFindIndex_eq_neg_one {α : Type} (p : α → Bool) (l : List α)
    (h : ∀ x ∈ l, p x = false) : jsFindIndex p l = -1 :=
  jsFindIndexFrom_eq_neg_one p l 0 h

theorem jsFindIndex_nonneg {α : Type} (p : α → Bool) (l : List α) (x : α)
    (hx : x ∈ l) (hp : p x = true) : 0 ≤ jsFindIndex p l :=
  jsFindIndexFrom_nonneg p l 0 x hx hp

theorem jsFindIndex_first {α : Type} (p : α → Bool) (l : List α) (j : Nat) (x : α)
    (hj : l.get? j = some x) (hx : p x = true)
    (hmin : ∀ k y, k < j → l.get? k = some y → p y = false) :
    jsFindIndex p l = (j : Int) := by
  have := jsFindIndexFrom_first p l j x hj hx hmin 0
  simpa [jsFindIndex] using this

theorem get?_length_append {α : Type} :
    ∀ (l₁ : List α) (x : α) (l₂ : List α),
      (l₁ ++ x :: l₂).get? l₁.length = some x
  | [], _, _ => rfl
  | _ :: rest, x, l₂ => get?_length_append rest x l₂

theorem get?_append_lt {α : Type} :
    ∀ (l₁ l₂ : List α) (k : Nat), k < l₁.length →
      (l₁ ++ l₂).get? k = l₁.get? k
  | [], _, k, h => absurd h (by simp)
  | _ :: _, _, 0, _ => rfl
  | _ :: rest, l₂, k + 1, h => get?_append_lt rest l₂ k (Nat.lt_of_succ_lt_succ h)

theorem mem_of_get? {α : Type} :
    ∀ (l : List α) (k : Nat) (x : α), l.get? k = some x → x ∈ l
  | [], k, x, h => by simp [List.get?] at h
  | z :: rest, 0, x, h => by
    have : z = x := Option.some.inj h
    exact this ▸ List.mem_cons_self z rest
  | z :: rest, k + 1, x, h =>
    List.mem_cons_of_mem z (mem_of_get? rest k x h)

theorem eraseIdx_length_append {α : Type} :
    ∀ (l₁ : List α) (x : α) (l₂ : List α),
      (l₁ ++ x :: l₂).eraseIdx l₁.length = l₁ ++ l₂
  | [], _, _ => rfl
  | a :: rest, x, l₂ => by
    show a :: (rest ++ x :: l₂).eraseIdx rest.length = a :: (rest ++ l₂)
    rw [eraseIdx_length_append rest x l₂]

end AM

namespace Listeners

theorem getAppendDrop {α : Type} :
    ∀ (l₀ : List α) (k : Nat) (e : List α), k < l₀.length →
      ∃ x, (l₀ ++ e).get? k = some x ∧ l₀.drop k = x :: l₀.drop (k + 1)
  | [], k, _, h => absurd h (by simp)
  | a :: _, 0, _, _ => ⟨a, rfl, rfl⟩
  | _ :: rest, k + 1, e, h =>
    getAppendDrop rest k e (Nat.lt_of_succ_lt_succ h)

theorem notifyAux_append (act : Nat → List Nat → List Nat)
    (hact : ∀ cb l, ∃ e, act cb l = l ++ e) (l₀ : List Nat) :
    ∀ (fuel k : Nat) (l inv : List Nat), fuel + k = l₀.length →
      (∃ e, l = l₀ ++ e) →
      (notifyAux act fuel k l inv).2 = inv ++ l₀.drop k := by
  intro fuel
  induction fuel with
  | zero =>
    intro k l inv hk _
    have hge : l₀.length ≤ k := by omega
    simp [notifyAux, List.drop_eq_nil_of_le hge]
  | succ n ih =>
    intro k l inv hk he
    obtain ⟨e, rfl⟩ := he
    have hklt : k < l₀.length := by omega
    obtain ⟨x, hget, hdrop⟩ := getAppendDrop l₀ k e hklt
    obtain ⟨e2, he2⟩ := hact x (l₀ ++ e)
    have hrec := ih (k + 1) (l₀ ++ (e ++ e2)) (inv ++ [x]) (by omega)
      ⟨e ++ e2, rfl⟩
    simp only [notifyAux, hget]
    rw [he2, List.append_assoc] at *
    rw [hrec, hdrop]
    simp

end Listeners

namespace Listeners

theorem disposerRun_split (cb : Nat) (l₁ l₂ : List Nat) (h : cb ∉ l₁) :
    disposerRun cb (l₁ ++ cb :: l₂) = l₁ ++ l₂ := by
  have hfind : AM.jsFindIndex (fun x => x == cb) (l₁ ++ cb :: l₂) = (l₁.length : Int) := by
    apply AM.jsFindIndex_first _ _ _ cb
    · exact AM.get?_length_append l₁ cb l₂
    · simp
    · intro k y hk hy
      rw [AM.get?_append_lt l₁ (cb :: l₂) k hk] at hy
      have hmem : y ∈ l₁ := AM.mem_of_get? l₁ k y hy
      have hne : y ≠ cb := fun heq => h (heq ▸ hmem)
      simpa using hne
  simp only [disposerRun, hfind]
  have h0 : (0 : Int) ≤ (l₁.length : Int) := Int.ofNat_nonneg _
  rw [if_pos h0]
  have : ((l₁.length : Int)).toNat = l₁.length := Int.toNat_ofNat _
  rw [this]
  exact AM.eraseIdx_length_append l₁ cb l₂

theorem disposerRun_not_mem (cb : Nat) (l : List Nat) (h : cb ∉ l) :
    disposerRun cb l = l := by
  have hfind : AM.jsFindIndex (fun x => x == cb) l = -1 := by
    apply AM.jsFindIndex_eq_neg_one
    intro x hx
    have hne : x ≠ cb := fun heq => h (heq ▸ hx)
    simpa using hne
  simp [disposerRun, hfind]

theorem exists_first_split (cb : Nat) :
    ∀ l : List Nat, cb ∈ l → ∃ l₁ l₂, l = l₁ ++ cb :: l₂ ∧ cb ∉ l₁
  | [], h => absurd h (List.not_mem_nil cb)
  | z :: rest, h => by
    by_cases hz : z = cb
    · exact ⟨[], rest, by simp [hz], by simp⟩
    · have hmem : cb ∈ rest := by
        rcases List.mem_cons.mp h with h1 | h2
        · exact absurd h1.symm hz
        · exact h2
      obtain ⟨l₁, l₂, heq, hn⟩ := exists_first_split cb rest hmem
      refine ⟨z :: l₁, l₂, by simp [heq], ?_⟩
      intro hc
      rcases List.mem_cons.mp hc with h1 | h2
      · exact hz h1.symm
      · exact hn h2

end Listeners

namespace AM

/-- C1: with playlists A and B both registered and A the active, playing
playlist, `playPlaylist(B, i)` at a valid index `i` of B's track list
makes B the active playlist with `currentIndex = i`, so the state
snapshot broadcast afterwards names B, not A, as the playing playlist. -/
theorem playPlaylist_arbitration (s : MState) (A B : String) (pA pB : Player) (i : Nat)
    (hA : s.players A = some pA) (hact : s.activePlayerName = some A)
    (hplay : s.isPlaying = true) (hAB : A ≠ B)
    (hB : s.players B = some pB) (hi : i < pB.playlist.length) :
    (playPlaylist s B i).activePlayerName = some B ∧
    (playPlaylist s B i).currentIndex = i ∧
    (getState (playPlaylist s B i)).playlistName = some B ∧
    (getState (playPlaylist s B i)).playlistName ≠ some A := by
  obtain ⟨t, ht⟩ : ∃ t, pB.playlist[i]? = some t := by
    cases h : pB.playlist[i]? with
    | none =>
      rw [List.getElem?_eq_none_iff] at h
      omega
    | some t => exact ⟨t, rfl⟩
  have hlen : ¬ pB.playlist.length = 0 := by omega
  have hBA : ¬ (B = A) := fun h => hAB h.symm
  simp [playPlaylist, hB, loadTrack, ht, play, hlen, getState, hBA]

def trackA1 : Track := ⟨"a1", "/a/a1.mp3"⟩

def trackB1 : Track := ⟨"b1", "/b/b1.mp3"⟩

def trackB2 : Track := ⟨"b2", "/b/b2.mp3"⟩

def pAw : Player := ⟨"A", [trackA1], none, none, fun _ => none⟩

def pBw : Player := ⟨"B", [trackB1, trackB2], none, none, fun _ => none⟩

def sW1 : MState :=
  { players := fun n => if n = "A" then some pAw else if n = "B" then some pBw else none,
    activePlayerName := some "A", currentPlaylist := [trackA1], currentIndex := 0,
    isPlaying := true, audioSrc := "/a/a1.mp3", audioTime := 0, audioDuration := 0,
    pending := none }

theorem playPlaylist_arbitration_witness :
    (playPlaylist sW1 "B" 1).activePlayerName = some "B" ∧
    (playPlaylist sW1 "B" 1).currentIndex = 1 ∧
    (getState (playPlaylist sW1 "B" 1)).playlistName = some "B" ∧
    (getState (playPlaylist sW1 "B" 1)).playlistName ≠ some "A" :=
  playPlaylist_arbitration sW1 "A" "B" pAw pBw 1 rfl rfl rfl (by decide) rfl (by decide)

/-- C3: `tryReconnect(name)` fails leaving the state (and the pending
record) untouched when no pending record exists or its captured name
differs from `name`; when the name matches, the playlist is registered,
and no track's src is contained in the captured resource src, it
discards the pending record and fails, after which any further
`tryReconnect` also fails. -/
theorem tryReconnect_failure_spec (s : MState) (name : String) :
    (s.pending = none → tryReconnect s name = (s, false)) ∧
    (∀ pr, s.pending = some pr → pr.playerName ≠ some name →
      tryReconnect s name = (s, false)) ∧
    (∀ pr player, s.pending = some pr → pr.playerName = some name →
      s.players name = some player →
      (∀ t ∈ player.playlist, jsIncludes pr.src t.src = false) →
      tryReconnect s name = ({ s with pending := none }, false) ∧
      ∀ name2, tryReconnect { s with pending := none } name2 =
        ({ s with pending := none }, false)) := by
  refine ⟨?_, ?_, ?_⟩
  · intro h
    simp [tryReconnect, h]
  · intro pr h hne
    simp [tryReconnect, h, hne]
  · intro pr player h hn hp hmatch
    have hidx : jsFindIndex (fun t => jsIncludes pr.src t.src) player.playlist = -1 :=
      jsFindIndex_eq_neg_one _ _ hmatch
    refine ⟨?_, ?_⟩
    · simp [tryReconnect, h, hn, hp, hidx]
    · intro name2
      simp [tryReconnect]

def prW : Pending := ⟨some "X", "/music/song1.mp3", 0, true⟩

def pXw : Player := ⟨"X", [⟨"s2", "/music/song2.mp3"⟩], none, none, fun _ => none⟩

def sW3 : MState :=
  { players := fun n => if n = "X" then some pXw else none,
    activePlayerName := none, currentPlaylist := [], currentIndex := 0,
    isPlaying := false, audioSrc := "", audioTime := 0, audioDuration := 0,
    pending := some prW }

theorem tryReconnect_failure_spec_witness :
    tryReconnect sW3 "Y" = (sW3, false) ∧
    tryReconnect sW3 "X" = ({ sW3 with pending := none }, false) :=
  ⟨(tryReconnect_failure_spec sW3 "Y").2.1 prW rfl (by decide),
   ((tryReconnect_failure_spec sW3 "X").2.2 prW pXw rfl rfl rfl (by decide)).1⟩

/-- C4: with a non-empty selected playlist, `next()` below the last index
loads track `currentIndex + 1` and plays it (`isPlaying` stays true when
it was true); at the last index it loads track 0 and pauses, leaving
`isPlaying = false`. -/
theorem next_spec (s : MState) (h : s.currentPlaylist ≠ []) :
    (∀ t, s.currentIndex < s.currentPlaylist.length - 1 →
      s.currentPlaylist[s.currentIndex + 1]? = some t →
      (next s).currentIndex = s.currentIndex + 1 ∧
      (next s).audioSrc = t.src ∧
      (s.isPlaying = true → (next s).isPlaying = true)) ∧
    (∀ t, s.currentIndex = s.currentPlaylist.length - 1 →
      s.currentPlaylist[0]? = some t →
      (next s).currentIndex = 0 ∧
      (next s).audioSrc = t.src ∧
      (next s).isPlaying = false) := by
  have hlen : ¬ s.currentPlaylist.length = 0 := by
    cases hc : s.currentPlaylist with
    | nil => exact absurd hc h
    | cons a l => simp [hc]
  constructor
  · intro t hlt hget
    simp [next, hlt, loadTrack, hget, play, hlen]
  · intro t heq hget
    have hnlt : ¬ s.currentIndex < s.currentPlaylist.length - 1 := by omega
    simp [next, hnlt, loadTrack, hget, pause]

def sW4a : MState :=
  { players := fun _ => none, activePlayerName := some "B",
    currentPlaylist := [trackB1, trackB2], currentIndex := 0,
    isPlaying := true, audioSrc := "/b/b1.mp3", audioTime := 0, audioDuration := 0,
    pending := none }

def sW4b : MState := { sW4a with currentIndex := 1, audioSrc := "/b/b2.mp3" }

theorem next_spec_witness :
    ((next sW4a).currentIndex = 1 ∧ (next sW4a).audioSrc = "/b/b2.mp3" ∧
      (sW4a.isPlaying = true → (next sW4a).isPlaying = true)) ∧
    ((next sW4b).currentIndex = 0 ∧ (next sW4b).audioSrc = "/b/b1.mp3" ∧
      (next sW4b).isPlaying = false) :=
  ⟨(next_spec sW4a (by decide)).1 trackB2 (by decide) (by decide),
   (next_spec sW4b (by decide)).2 trackB1 (by decide) (by decide)⟩

/-- C9: when the pending record's captured name equals `name` but no
playlist is registered under `name`, `tryReconnect(name)` fails with the
whole state (pending record included) unchanged, and once a playlist with
a track matching the captured src is registered under `name`, a later
`tryReconnect(name)` succeeds. -/
theorem tryReconnect_missing_player (s : MState) (name : String) (pr : Pending)
    (h1 : s.pending = some pr) (h2 : pr.playerName = some name)
    (h3 : s.players name = none) :
    tryReconnect s name = (s, false) ∧
    (∀ tracks a y t, t ∈ tracks → jsIncludes pr.src t.src = true →
      (tryReconnect (register s name tracks a y) name).2 = true) := by
  constructor
  · simp [tryReconnect, h1, h2, h3]
  · intro tracks a y t ht hinc
    have hreg : (register s name tracks a y).players name =
        some { name := name, playlist := tracks, artist := a, year := y,
               waveforms := fun _ => none } := by
      simp [register, h3, rset]
    have hpend : (register s name tracks a y).pending = some pr := h1
    have hnn : 0 ≤ jsFindIndex (fun tr => jsIncludes pr.src tr.src) tracks :=
      jsFindIndex_nonneg _ _ t ht hinc
    simp [tryReconnect, hpend, h2, hreg, hnn]

def sW9 : MState :=
  { players := fun _ => none, activePlayerName := none, currentPlaylist := [],
    currentIndex := 0, isPlaying := true, audioSrc := "http://h/music/song1.mp3",
    audioTime := 7, audioDuration := 0,
    pending := some ⟨some "X", "http://h/music/song1.mp3", 7, true⟩ }

theorem tryReconnect_missing_player_witness :
    tryReconnect sW9 "X" = (sW9, false) ∧
    (tryReconnect (register sW9 "X" [⟨"s1", "/music/song1.mp3"⟩] none none) "X").2 = true := by
  have h := tryReconnect_missing_player sW9 "X" ⟨some "X", "http://h/music/song1.mp3", 7, true⟩ rfl rfl rfl
  exact ⟨h.1, h.2 [⟨"s1", "/music/song1.mp3"⟩] none none ⟨"s1", "/music/song1.mp3"⟩
    (by decide) (by decide)⟩

/-- C10: unregistering the active playlist empties the selected track
list, so `getCurrentTrack()` returns `null`, while the resource's loaded
source is untouched. -/
theorem unregister_active_spec (s : MState) (name : String)
    (h : s.activePlayerName = some name) :
    (unregister s name).currentPlaylist = [] ∧
    getCurrentTrack (unregister s name) = none ∧
    (unregister s name).audioSrc = s.audioSrc := by
  simp [unregister, h, getCurrentTrack]

def sW10 : MState :=
  { players := fun n => if n = "A" then some pAw else none,
    activePlayerName := some "A", currentPlaylist := [trackA1], currentIndex := 0,
    isPlaying := true, audioSrc := "/a/a1.mp3", audioTime := 3, audioDuration := 9,
    pending := none }

theorem unregister_active_spec_witness :
    (unregister sW10 "A").currentPlaylist = [] ∧
    getCurrentTrack (unregister sW10 "A") = none ∧
    (unregister sW10 "A").audioSrc = sW10.audioSrc :=
  unregister_active_spec sW10 "A" rfl

end AM

namespace AM

/-- C6: with playlist A registered, a waveform stored for A via
`setWaveform` survives registering another playlist B and re-registering
A with an arbitrary track list: `getWaveform` still returns it unchanged. -/
theorem register_preserves_waveform_cache (s : MState) (A B : String) (pA : Player)
    (hA : s.players A = some pA) (hAB : A ≠ B) (i : Nat) (d : WaveformData)
    (trA trB : List Track) (aA yA aB yB : Option String) :
    getWaveform (register (register (setWaveform s A i d) B trB aB yB) A trA aA yA) A i
      = some d := by
  have hBA : B ≠ A := Ne.symm hAB
  simp [setWaveform, hA, register, getWaveform, rset, wset, hAB, hBA]

def sW6 : MState :=
  { players := fun n => if n = "A" then some pAw else none,
    activePlayerName := none, currentPlaylist := [], currentIndex := 0,
    isPlaying := false, audioSrc := "", audioTime := 0, audioDuration := 0,
    pending := none }

theorem register_preserves_waveform_cache_witness :
    getWaveform
      (register (register (setWaveform sW6 "A" 0 [5, 9]) "B" [trackB1] none none)
        "A" [trackA1] none none) "A" 0 = some [5, 9] :=
  register_preserves_waveform_cache sW6 "A" "B" pAw rfl (by decide) 0 [5, 9]
    [trackA1] [trackB1] none none none none

/-- C7: `clearPlayers()` empties the registry while leaving the playback
resource alone (`isPlaying`, loaded source, and position unchanged), and
captures a PendingReconnect built from the pre-clear active name,
source, time and playing flag. -/
theorem clearPlayers_spec (s : MState) :
    (∀ n, (clearPlayers s).players n = none) ∧
    (clearPlayers s).isPlaying = s.isPlaying ∧
    (clearPlayers s).audioSrc = s.audioSrc ∧
    (clearPlayers s).audioTime = s.audioTime ∧
    (clearPlayers s).activePlayerName = s.activePlayerName ∧
    (clearPlayers s).currentIndex = s.currentIndex ∧
    (clearPlayers s).pending =
      some { playerName := s.activePlayerName, src := s.audioSrc,
             time := s.audioTime, playing := s.isPlaying } :=
  ⟨fun _ => rfl, rfl, rfl, rfl, rfl, rfl, rfl⟩

/-- C5: `findMasterIndex`/`findLocalIndex` return the index of the first
track of the target playlist whose percent-decoded src equals the
percent-decoded src of the source track at the given index, and `-1`
when the source index has no track, either playlist is absent, or no
target track matches. -/
theorem index_translation_spec (ap : APlayer) (players : String → Option Player) :
    (ap.masterPlaylist = none →
      ∀ i : Int, findLocalIndex ap players i = -1 ∧ findMasterIndex ap players i = -1) ∧
    (∀ mname, ap.masterPlaylist = some mname → players mname = none →
      ∀ i : Int, findLocalIndex ap players i = -1 ∧ findMasterIndex ap players i = -1) ∧
    (∀ mname mp, ap.masterPlaylist = some mname → players mname = some mp →
      (∀ mi : Int, intGet? mp.playlist mi = none → findLocalIndex ap players mi = -1) ∧
      (∀ li : Int, intGet? ap.playlist li = none → findMasterIndex ap players li = -1) ∧
      (∀ mi mt, intGet? mp.playlist mi = some mt →
        ((∀ t ∈ ap.playlist,
            (decodeURIComponent t.src == decodeURIComponent mt.src) = false) →
          findLocalIndex ap players mi = -1) ∧
        (∀ j lt, ap.playlist.get? j = some lt →
          (decodeURIComponent lt.src == decodeURIComponent mt.src) = true →
          (∀ k y, k < j → ap.playlist.get? k = some y →
            (decodeURIComponent y.src == decodeURIComponent mt.src) = false) →
          findLocalIndex ap players mi = (j : Int))) ∧
      (∀ li lt, intGet? ap.playlist li = some lt →
        ((∀ t ∈ mp.playlist,
            (decodeURIComponent t.src == decodeURIComponent lt.src) = false) →
          findMasterIndex ap players li = -1) ∧
        (∀ j mt, mp.playlist.get? j = some mt →
          (decodeURIComponent mt.src == decodeURIComponent lt.src) = true →
          (∀ k y, k < j → mp.playlist.get? k = some y →
            (decodeURIComponent y.src == decodeURIComponent lt.src) = false) →
          findMasterIndex ap players li = (j : Int)))) := by
  refine ⟨?_, ?_, ?_⟩
  · intro h i
    exact ⟨by simp [findLocalIndex, h], by simp [findMasterIndex, h]⟩
  · intro mname hm hp i
    constructor
    · simp [findLocalIndex, hm, hp]
    · cases hg : intGet? ap.playlist i with
      | none => simp [findMasterIndex, hm, hg]
      | some lt => simp [findMasterIndex, hm, hg, hp]
  · intro mname mp hm hp
    refine ⟨?_, ?_, ?_, ?_⟩
    · intro mi hg
      simp [findLocalIndex, hm, hp, hg]
    · intro li hg
      simp [findMasterIndex, hm, hg]
    · intro mi mt hg
      constructor
      · intro hno
        have hfi : jsFindIndex
            (fun t => decodeURIComponent t.src == decodeURIComponent mt.src)
            ap.playlist = -1 :=
          jsFindIndex_eq_neg_one _ _ hno
        simp [findLocalIndex, hm, hp, hg, hfi]
      · intro j lt hj hlt hmin
        have hfi : jsFindIndex
            (fun t => decodeURIComponent t.src == decodeURIComponent mt.src)
            ap.playlist = (j : Int) :=
          jsFindIndex_first _ _ j lt hj hlt hmin
        simp [findLocalIndex, hm, hp, hg, hfi]
    · intro li lt hg
      constructor
      · intro hno
        have hfi : jsFindIndex
            (fun t => decodeURIComponent t.src == decodeURIComponent lt.src)
            mp.playlist = -1 :=
          jsFindIndex_eq_neg_one _ _ hno
        simp [findMasterIndex, hm, hp, hg, hfi]
      · intro j mt hj hmt hmin
        have hfi : jsFindIndex
            (fun t => decodeURIComponent t.src == decodeURIComponent lt.src)
            mp.playlist = (j : Int) :=
          jsFindIndex_first _ _ j mt hj hmt hmin
        simp [findMasterIndex, hm, hp, hg, hfi]

def exMaster : Player :=
  { name := "M", playlist := [⟨"", "/a/1.mp3"⟩, ⟨"", "/a/2.mp3"⟩],
    artist := none, year := none, waveforms := fun _ => none }

def exPlayers : String → Option Player :=
  fun n => if n = "M" then some exMaster else none

def exAp : APlayer := { masterPlaylist := some "M", playlist := [⟨"", "/a/2.mp3"⟩] }

theorem index_translation_spec_witness :
    findLocalIndex exAp exPlayers 1 = 0 ∧ findLocalIndex exAp exPlayers 0 = -1 := by
  have h := (index_translation_spec exAp exPlayers).2.2 "M" exMaster rfl rfl
  constructor
  · exact (h.2.2.1 1 ⟨"", "/a/2.mp3"⟩ (by decide)).2 0 ⟨"", "/a/2.mp3"⟩
      (by decide) (by decide) (fun k y hk _ => absurd hk (Nat.not_lt_zero k))
  · exact (h.2.2.1 0 ⟨"", "/a/1.mp3"⟩ (by decide)).1 (by decide)

end AM

namespace Listeners

/-- C2 counterexample: with listeners `[10, 20]` and listener 10 running
its own disposer during its invocation, listener 20 — registered when
the broadcast began — is never invoked in that broadcast, refuting the
claimed snapshot semantics. -/
theorem notify_self_unsub_skips :
    20 ∈ [10, 20] ∧
    (notifyListeners selfRemoveAct [10, 20]).2.count 20 = 0 := by decide

/-- C2 (amended): the broadcast iterates the live listener array, not a
snapshot.  When callbacks only add listeners (each invocation extends
the array on the right), every listener registered when the broadcast
began is still invoked exactly once, in order, and newly added listeners
are not invoked in that broadcast; but a listener removed during the
broadcast shifts later entries down, so the listener immediately after a
removal point is skipped (see the counterexample). -/
theorem notify_append_only (act : Nat → List Nat → List Nat) (l : List Nat)
    (hact : ∀ cb l2, ∃ e, act cb l2 = l2 ++ e) :
    (notifyListeners act l).2 = l := by
  have h := notifyAux_append act hact l l.length 0 l [] (by omega) ⟨[], by simp⟩
  simpa [notifyListeners] using h

theorem notify_append_only_witness :
    (notifyListeners (fun _ l2 => l2) [1, 2, 3]).2 = [1, 2, 3] :=
  notify_append_only (fun _ l2 => l2) [1, 2, 3] (fun _ l2 => ⟨[], by simp⟩)

/-- C8 counterexample: when the same callback is registered twice,
running its disposer twice removes both registrations, so a second call
is not a no-op. -/
theorem disposer_twice_on_duplicate :
    disposerRun 7 (disposerRun 7 [7, 7]) ≠ disposerRun 7 [7, 7] := by decide

/-- C8 (amended): the disposer removes exactly the first registration of
its callback (it is a no-op on an empty list), and it is idempotent
provided the callback is registered at most once; with duplicate
registrations each call removes one further occurrence (see the
counterexample). -/
theorem disposer_spec (cb : Nat) (l l₁ l₂ : List Nat) :
    disposerRun cb ([] : List Nat) = [] ∧
    (cb ∉ l₁ → l = l₁ ++ cb :: l₂ → disposerRun cb l = l₁ ++ l₂) ∧
    (l.count cb ≤ 1 → disposerRun cb (disposerRun cb l) = disposerRun cb l) := by
  refine ⟨rfl, ?_, ?_⟩
  · intro h he
    exact he ▸ disposerRun_split cb l₁ l₂ h
  · intro hc
    by_cases hm : cb ∈ l
    · obtain ⟨m₁, m₂, rfl, hn1⟩ := exists_first_split cb l hm
      rw [disposerRun_split cb m₁ m₂ hn1]
      apply disposerRun_not_mem
      intro hmem
      have hcnt : (m₁ ++ cb :: m₂).count cb = m₁.count cb + (m₂.count cb + 1) := by
        simp [List.count_append]
      have h2 : m₂.count cb = 0 := by omega
      rcases List.mem_append.mp hmem with h1 | h2'
      · exact hn1 h1
      · exact (List.count_eq_zero.mp h2) h2'
    · rw [disposerRun_not_mem cb l hm, disposerRun_not_mem cb l hm]

theorem disposer_spec_witness :
    disposerRun 1 [0, 1, 2] = [0] ++ [2] ∧
    disposerRun 1 (disposerRun 1 [0, 1, 2]) = disposerRun 1 [0, 1, 2] :=
  ⟨(disposer_spec 1 [0, 1, 2] [0] [2]).2.1 (by decide) (by decide),
   (disposer_spec 1 [0, 1, 2] [0] [2]).2.2 (by decide)⟩

end Listeners
